import Mathlib

/-
Verification of the configuration-resolution layer of the oxc linter
(`crates/oxc_linter/src/config/mod.rs`): JSON rule/severity decoding,
rule-name resolution, settings extraction, and the override engine that
merges a parsed configuration onto a baseline set of active rules.

The JSON data model is a shallow embedding of `serde_json::Value`
(numbers restricted to integers, which covers every value the
configuration layer inspects); objects are association lists in document
order.  Fallible Rust paths are embedded as `Except`/`Option`: a Rust
`panic!`/`unwrap` failure is modelled as `Option.none`.
-/

set_option autoImplicit false

/-- JSON values, mirroring `serde_json::Value` (numbers as integers). -/
inductive Value where
  | null : Value
  | bool : Bool → Value
  | num : Int → Value
  | str : String → Value
  | arr : List Value → Value
  | obj : List (String × Value) → Value

/-- Mirrors `serde_json::Value::as_str`. -/
def Value.asStr : Value → Option String
  | .str s => some s
  | _ => none

/-- Mirrors `serde_json::Value::as_array`. -/
def Value.asArr : Value → Option (List Value)
  | .arr xs => some xs
  | _ => none

/-- Mirrors matching a value against the `Value::Object` pattern. -/
def Value.asObj : Value → Option (List (String × Value))
  | .obj fs => some fs
  | _ => none

/-- Mirrors `serde_json::Map::get`: first binding of the key. -/
def objGet (fields : List (String × Value)) (k : String) : Option Value :=
  (fields.find? (fun kv => kv.1 == k)).map (fun kv => kv.2)

/-- Lower-case hexadecimal digit, as used by `serde_json`'s escaper. -/
def hexDigit (n : Nat) : Char :=
  if n < 10 then Char.ofNat (48 + n) else Char.ofNat (87 + n)

/-- Escape one character as in `serde_json`'s string serializer. -/
def escapeJsonChar (c : Char) : String :=
  if c == '"' then "\\\""
  else if c == '\\' then "\\\\"
  else if c == '\x08' then "\\b"
  else if c == '\x0c' then "\\f"
  else if c == '\n' then "\\n"
  else if c == '\r' then "\\r"
  else if c == '\t' then "\\t"
  else if c.toNat < 32 then "\\u00" ++ String.mk [hexDigit (c.toNat / 16), hexDigit (c.toNat % 16)]
  else String.mk [c]

/-- Serialize a JSON string literal with quotes, as `serde_json` does. -/
def escapeJsonString (s : String) : String :=
  "\"" ++ String.join (s.data.map escapeJsonChar) ++ "\""

mutual

/-- Compact serialization of a JSON value: `serde_json::Value::to_string`. -/
def jsonToString : Value → String
  | .null => "null"
  | .bool b => if b then "true" else "false"
  | .num n => toString n
  | .str s => escapeJsonString s
  | .arr xs => "[" ++ jsonListToString xs ++ "]"
  | .obj fs => "\x7b" ++ jsonFieldsToString fs ++ "\x7d"

/-- Comma-separated serialization of array elements. -/
def jsonListToString : List Value → String
  | [] => ""
  | [v] => jsonToString v
  | v :: v' :: vs => jsonToString v ++ "," ++ jsonListToString (v' :: vs)

/-- Comma-separated serialization of object fields. -/
def jsonFieldsToString : List (String × Value) → String
  | [] => ""
  | [kv] => escapeJsonString kv.1 ++ ":" ++ jsonToString kv.2
  | kv :: kv' :: fs =>
    escapeJsonString kv.1 ++ ":" ++ jsonToString kv.2 ++ "," ++ jsonFieldsToString (kv' :: fs)

end

/-- Severity of a rule: `AllowWarnDeny` in `crate::AllowWarnDeny`. -/
inductive AllowWarnDeny where
  | allow : AllowWarnDeny
  | warn : AllowWarnDeny
  | deny : AllowWarnDeny
deriving DecidableEq

/-- Errors of the configuration layer (`self::errors`), collapsed into one
sum type; each constructor carries the diagnostic text the source attaches. -/
inductive ConfigError where
  | failedToParseRuleValue : String → String → ConfigError
  | failedToParseSeverity : String → ConfigError
deriving DecidableEq

/-- Modelled from the spec: `impl TryFrom<&str> for AllowWarnDeny` lives in
`crate::AllowWarnDeny`, outside the given source file.  Per the spec, the
strings "off"/"warn"/"error" decode to Allow/Warn/Deny and any other
string is a decode error. -/
def AllowWarnDeny.tryFromStr (s : String) : Except ConfigError AllowWarnDeny :=
  match s with
  | "off" => .ok .allow
  | "warn" => .ok .warn
  | "error" => .ok .deny
  | _ => .error (.failedToParseSeverity s)

/-- Modelled from the spec: `impl TryFrom<&Value> for AllowWarnDeny` lives in
`crate::AllowWarnDeny`, outside the given source file.  Per the spec, the
strings "off"/"warn"/"error" or their numeric equivalents 0/1/2 decode to
Allow/Warn/Deny; any other value is a decode error. -/
def AllowWarnDeny.tryFromValue (v : Value) : Except ConfigError AllowWarnDeny :=
  match v with
  | .str s => AllowWarnDeny.tryFromStr s
  | .num 0 => .ok .allow
  | .num 1 => .ok .warn
  | .num 2 => .ok .deny
  | _ => .error (.failedToParseSeverity (jsonToString v))

/-- One parsed rule entry: `ESLintRuleConfig`. -/
structure ESLintRuleConfig where
  plugin_name : String
  rule_name : String
  severity : AllowWarnDeny
  config : Option Value

/-- Mirrors `resolve_rule_value`: decode a rule's configured JSON value into
a severity and an optional options payload. -/
def resolve_rule_value (value : Value) :
    Except ConfigError (AllowWarnDeny × Option Value) :=
  match value.asStr with
  | some v =>
    match AllowWarnDeny.tryFromStr v with
    | .ok s => .ok (s, none)
    | .error e => .error e
  | none =>
    match value.asArr with
    | some v =>
      let config := (v.drop 1).take 2
      let config := if config.isEmpty then none else some (Value.arr config)
      match v.head? with
      | some v0 =>
        match AllowWarnDeny.tryFromValue v0 with
        | .ok s => .ok (s, config)
        | .error e => .error e
      | none => .error (.failedToParseRuleValue (jsonToString value) "Invalid rule value")
    | none => .error (.failedToParseRuleValue (jsonToString value) "Invalid rule value")

/-- Mirrors `str::split_once`: split a character list at the first
occurrence of `c`, returning the parts before and after it. -/
def splitOnce (c : Char) : List Char → Option (List Char × List Char)
  | [] => none
  | x :: xs =>
    if x == c then some ([], xs)
    else
      match splitOnce c xs with
      | some (pre, post) => some (x :: pre, post)
      | none => none

/-- Mirrors `parse_rule_name`: split a raw rule key into a normalized
(plugin, rule) pair. -/
def parse_rule_name (name : String) : String × String :=
  match splitOnce '/' name.data with
  | some (category, rest) =>
    let category := category.dropWhile (fun ch => ch == '@')
    let category := String.mk category
    let category :=
      match category with
      | "typescript-eslint" => "typescript"
      | "jsx-a11y" => "jsx_a11y"
      | _ => category
    (category, String.mk rest)
  | none => ("eslint", name)

/-- Mirrors `parse_rules`: decode every entry under the "rules" key, in
document order, failing on the first bad rule value. -/
def parse_rules (root_json : Value) : Except ConfigError (List ESLintRuleConfig) :=
  match root_json with
  | .obj rules_object =>
    match objGet rules_object "rules" with
    | some (.obj rules_object) =>
      rules_object.mapM (fun kv => do
        let (plugin_name, rule_name) := parse_rule_name kv.1
        let (severity, config) ← resolve_rule_value kv.2
        pure (ESLintRuleConfig.mk plugin_name rule_name severity config))
    | _ => .ok []
  | _ => .ok []

/-- Accessibility-plugin settings: `crate::JsxA11y`. -/
structure JsxA11y where
  polymorphic_prop_name : Option String
  components : List (String × String)
deriving DecidableEq

/-- Linter settings: `crate::LintSettings`. -/
structure LintSettings where
  jsx_a11y : JsxA11y
deriving DecidableEq

/-- Mirrors `LintSettings::default()`. -/
def LintSettings.default : LintSettings :=
  ⟨⟨none, []⟩⟩

/-- The components-mapping extraction inside `parse_settings`.  The source
runs `value.as_str().unwrap()` on every component value; the `unwrap`
panic on a non-string value is modelled as `none`. -/
def componentsOf (jsx_a11y : List (String × Value)) : Option (List (String × String)) :=
  match objGet jsx_a11y "components" with
  | some (.obj components) =>
    components.mapM (fun kv => (kv.2.asStr).map (fun s => (kv.1, s)))
  | _ => some []

/-- The polymorphicPropName extraction inside `parse_settings`. -/
def polymorphicPropNameOf (jsx_a11y : List (String × Value)) : Option String :=
  match objGet jsx_a11y "polymorphicPropName" with
  | some (.str polymorphic_prop_name) => some polymorphic_prop_name
  | _ => none

/-- Mirrors `parse_settings`; `none` models the `unwrap` panic taken when a
components value is not a string. -/
def parse_settings (setting_value : Value) : Option LintSettings :=
  match setting_value with
  | .obj settings_object =>
    match objGet settings_object "jsx-a11y" with
    | some (.obj jsx_a11y) =>
      match componentsOf jsx_a11y with
      | some comps => some ⟨⟨polymorphicPropNameOf jsx_a11y, comps⟩⟩
      | none => none
    | _ => some LintSettings.default
  | _ => some LintSettings.default

/-- Mirrors `parse_settings_from_root`. -/
def parse_settings_from_root (root_json : Value) : Option LintSettings :=
  match root_json with
  | .obj root_object =>
    match objGet root_object "settings" with
    | some settings_value => parse_settings settings_value
    | none => some LintSettings.default
  | _ => some LintSettings.default

/-- Modelled from the spec: `RuleEnum` (in `crate::rules`) is outside the
given source file.  Per the spec, an active rule instance exposes a stable
(plugin_name, rule_name) identity and an attached options payload, and the
active-rule set compares members by that identity. -/
structure RuleEnum where
  plugin_name : String
  rule_name : String
  config : Option Value

/-- Mirrors `RuleEnum::name`. -/
def RuleEnum.name (r : RuleEnum) : String :=
  r.rule_name

/-- Modelled from the spec: `RuleEnum::read_json` re-attaches a decoded
options payload to the existing rule kind, leaving its identity unchanged. -/
def RuleEnum.read_json (r : RuleEnum) (config : Option Value) : RuleEnum :=
  { r with config := config }

/-- Identity of a rule instance, the key the active-rule set compares by. -/
def ruleId (r : RuleEnum) : String × String :=
  (r.plugin_name, r.rule_name)

/-- Boolean identity comparison between two rule instances: the equality
the modelled `FxHashSet<RuleEnum>` uses. -/
def sameId (a b : RuleEnum) : Bool :=
  a.plugin_name == b.plugin_name && a.rule_name == b.rule_name

/-- Does the list contain a rule with the same identity as `r`? -/
def hasId (s : List RuleEnum) (r : RuleEnum) : Bool :=
  s.any (fun x => sameId x r)

/-- The set invariant of the modelled `FxHashSet<RuleEnum>`: no two members
share an identity. -/
def distinctIds : List RuleEnum → Bool
  | [] => true
  | r :: rest => !(hasId rest r) && distinctIds rest

/-- The predicate `override_rules` matches entries with:
`r.plugin_name == plugin_name && r.rule_name == rule_name`. -/
def entryMatches (e : ESLintRuleConfig) (r : RuleEnum) : Bool :=
  e.plugin_name == r.plugin_name && e.rule_name == r.rule_name

/-- Mirrors `self.rules.iter().find(...)` in `override_rules`: first entry
in document order whose (plugin_name, rule_name) equals the rule's. -/
def findEntry (rules : List ESLintRuleConfig) (r : RuleEnum) : Option ESLintRuleConfig :=
  rules.find? (fun e => entryMatches e r)

/-- The staging loop of `override_rules`: for each active rule, push a
replacement (Warn/Deny match), a removal (Allow match), or nothing. -/
def stageRules (rules : List ESLintRuleConfig) :
    List RuleEnum → List RuleEnum × List RuleEnum
  | [] => ([], [])
  | r :: rest =>
    let staged := stageRules rules rest
    match findEntry rules r with
    | some rule_to_configure =>
      match rule_to_configure.severity with
      | .warn => (r.read_json rule_to_configure.config :: staged.1, staged.2)
      | .deny => (r.read_json rule_to_configure.config :: staged.1, staged.2)
      | .allow => (staged.1, r :: staged.2)
    | none => staged

/-- Mirrors `HashSet::remove` on the identity-keyed set: drop the member
equal (same identity) to `r`, if any. -/
def removeRule : List RuleEnum → RuleEnum → List RuleEnum
  | [], _ => []
  | x :: xs, r => if sameId x r then xs else x :: removeRule xs r

/-- Mirrors `HashSet::replace` on the identity-keyed set: replace the member
with the same identity as `r` by `r`, inserting `r` if none exists. -/
def replaceRule : List RuleEnum → RuleEnum → List RuleEnum
  | [], r => [r]
  | x :: xs, r => if sameId x r then r :: xs else x :: replaceRule xs r

/-- The parsed configuration: `ESLintConfig`. -/
structure ESLintConfig where
  rules : List ESLintRuleConfig
  settings : LintSettings

/-- Mirrors `ESLintConfig::settings`. -/
def ESLintConfig.lintSettings (self : ESLintConfig) : LintSettings :=
  self.settings

/-- Mirrors `ESLintConfig::override_rules`: stage replacements and removals
over the active set, then apply all removals, then all replacements. -/
def ESLintConfig.override_rules (self : ESLintConfig)
    (rules_to_override : List RuleEnum) : List RuleEnum :=
  let staged := stageRules self.rules rules_to_override
  let rules_to_override := staged.2.foldl removeRule rules_to_override
  staged.1.foldl replaceRule rules_to_override

/-- Stated from the spec (section 4.5): the outcome the override engine
owes each active rule, as a partial map.  The first matching entry in
document order decides: Warn/Deny replaces the rule with one carrying the
entry's options payload, Allow drops it, and no match leaves it unchanged. -/
def specOverrideOutcome (rules : List ESLintRuleConfig) (r : RuleEnum) : Option RuleEnum :=
  match findEntry rules r with
  | some e =>
    match e.severity with
    | .allow => none
    | .warn => some (r.read_json e.config)
    | .deny => some (r.read_json e.config)
  | none => some r

/-- Stated from the spec (section 4.1): strip every leading `@` namespace
marker from a scope string. -/
def atStripped (s : String) : String :=
  String.mk (s.data.dropWhile (fun ch => ch == '@'))

/-- Stated from the spec (section 4.1): the two known scope aliases. -/
def aliasNormalized (s : String) : String :=
  match s with
  | "typescript-eslint" => "typescript"
  | "jsx-a11y" => "jsx_a11y"
  | _ => s

/-- Does the configuration entry `e` match no rule of the active set `s`? -/
def entryMatchesNone (e : ESLintRuleConfig) (s : List RuleEnum) : Bool :=
  s.all (fun r => !(entryMatches e r))

/-- The replacement staged for one active rule, if any: a Warn/Deny match
stages the rule re-read with the entry's options payload. -/
def stagedReplacement (rules : List ESLintRuleConfig) (r : RuleEnum) : Option RuleEnum :=
  match findEntry rules r with
  | some e =>
    match e.severity with
    | .allow => none
    | .warn => some (r.read_json e.config)
    | .deny => some (r.read_json e.config)
  | none => none

/-- Is the rule staged for removal (its first matching entry says Allow)? -/
def isAllowStaged (rules : List ESLintRuleConfig) (r : RuleEnum) : Bool :=
  match findEntry rules r with
  | some e =>
    match e.severity with
    | .allow => true
    | .warn => false
    | .deny => false
  | none => false

/-- A sample active rule: the core no-var rule, no options attached. -/
def exRuleNoVar : RuleEnum := ⟨"eslint", "no-var", none⟩

/-- A sample active rule: the core eqeqeq rule, no options attached. -/
def exRuleEqeqeq : RuleEnum := ⟨"eslint", "eqeqeq", none⟩

/-- A sample active rule from another plugin. -/
def exRuleNoAny : RuleEnum := ⟨"typescript", "no-explicit-any", none⟩

/-- A sample active rule set with pairwise distinct identities. -/
def exActiveRules : List RuleEnum := [exRuleNoVar, exRuleEqeqeq, exRuleNoAny]

/-- A sample configuration entry disabling no-var. -/
def exEntryNoVar : ESLintRuleConfig := ⟨"eslint", "no-var", .allow, none⟩

/-- A sample configuration entry reconfiguring eqeqeq at Warn. -/
def exEntryEqeqeq : ESLintRuleConfig :=
  ⟨"eslint", "eqeqeq", .warn, some (.arr [.str "always"])⟩

/-- A sample configuration entry matching no rule of `exActiveRules`. -/
def exEntryUnmatched : ESLintRuleConfig := ⟨"react", "jsx-key", .deny, none⟩

/-- A sample parsed configuration. -/
def exConfig : ESLintConfig := ⟨[exEntryNoVar, exEntryEqeqeq], LintSettings.default⟩

example : resolve_rule_value (.str "off") = .ok (.allow, none) := rfl
example : resolve_rule_value (.num 1) =
    .error (.failedToParseRuleValue "1" "Invalid rule value") := rfl
example : resolve_rule_value (.arr [.num 1]) = .ok (.warn, none) := rfl
example : resolve_rule_value (.arr []) =
    .error (.failedToParseRuleValue "[]" "Invalid rule value") := rfl
example : resolve_rule_value (.arr [.str "error", .num 1, .num 2, .num 3]) =
    .ok (.deny, some (.arr [.num 1, .num 2])) := rfl
example : parse_rule_name "no-var" = ("eslint", "no-var") := rfl
example : parse_rule_name "@typescript-eslint/no-var" = ("typescript", "no-var") := rfl
example : parse_settings (.obj [("jsx-a11y", .obj [("components", .obj [("Link", .num 1)])])]) =
    none := rfl

/-- Identity comparison agrees with equality of `ruleId`. -/
theorem sameId_iff (a b : RuleEnum) : sameId a b = true ↔ ruleId a = ruleId b := by
  simp [sameId, ruleId, Prod.ext_iff, Bool.and_eq_true]

/-- Identity comparison fails exactly when the identities differ. -/
theorem sameId_eq_false (a b : RuleEnum) : sameId a b = false ↔ ruleId a ≠ ruleId b := by
  constructor
  · intro h hcontra
    have h' : sameId a b = true := (sameId_iff a b).mpr hcontra
    rw [h] at h'
    exact Bool.false_ne_true h'
  · intro h
    cases hh : sameId a b
    · rfl
    · exact absurd ((sameId_iff a b).mp hh) h

/-- Every rule has its own identity. -/
theorem sameId_self (a : RuleEnum) : sameId a a = true :=
  (sameId_iff a a).mpr rfl

/-- No member of `s` carries the identity of `r`, element-wise. -/
theorem hasId_eq_false (s : List RuleEnum) (r : RuleEnum) :
    hasId s r = false ↔ ∀ x ∈ s, ruleId x ≠ ruleId r := by
  simp [hasId, List.any_eq_false, sameId_iff]

/-- Unfolding of the set invariant at a cons cell. -/
theorem distinctIds_cons (r : RuleEnum) (rest : List RuleEnum) :
    distinctIds (r :: rest) = true ↔ hasId rest r = false ∧ distinctIds rest = true := by
  simp [distinctIds]

/-- Re-reading options does not change a rule's identity. -/
theorem ruleId_read_json (r : RuleEnum) (c : Option Value) :
    ruleId (r.read_json c) = ruleId r := rfl

/-- Entry lookup ignores a rule's options payload. -/
theorem findEntry_read_json (rules : List ESLintRuleConfig) (r : RuleEnum) (c : Option Value) :
    findEntry rules (r.read_json c) = findEntry rules r := rfl

/-- The staging loop computes exactly the staged replacements and the staged
removals of the active list. -/
theorem stageRules_eq (rules : List ESLintRuleConfig) :
    ∀ s : List RuleEnum,
      stageRules rules s =
        (s.filterMap (stagedReplacement rules), s.filter (isAllowStaged rules)) := by
  intro s
  induction s with
  | nil => rfl
  | cons r rest ih =>
    simp only [stageRules, ih, List.filterMap_cons, List.filter_cons]
    cases hf : findEntry rules r with
    | none => simp [stagedReplacement, isAllowStaged, hf]
    | some e => cases hs : e.severity <;> simp [stagedReplacement, isAllowStaged, hf, hs]

/-- Removing a rule whose identity differs from the head passes over it. -/
theorem removeRule_cons_of_not (x r : RuleEnum) (s : List RuleEnum)
    (h : sameId x r = false) : removeRule (x :: s) r = x :: removeRule s r := by
  simp [removeRule, h]

/-- Removing the head rule keeps exactly the tail. -/
theorem removeRule_cons_of_same (x r : RuleEnum) (s : List RuleEnum)
    (h : sameId x r = true) : removeRule (x :: s) r = s := by
  simp [removeRule, h]

/-- A removal pass whose targets all differ from the head leaves the head. -/
theorem foldl_removeRule_cons (x : RuleEnum) :
    ∀ (rs s : List RuleEnum), (∀ r ∈ rs, sameId x r = false) →
      rs.foldl removeRule (x :: s) = x :: rs.foldl removeRule s
  | [], _, _ => rfl
  | r :: rs, s, h => by
    have h1 : sameId x r = false := h r (List.mem_cons_self r rs)
    simp only [List.foldl_cons, removeRule_cons_of_not x r s h1]
    exact foldl_removeRule_cons x rs (removeRule s r)
      (fun r' hr' => h r' (List.mem_cons_of_mem _ hr'))

/-- On a duplicate-free list, removing all members satisfying `p` keeps
exactly the members not satisfying `p`. -/
theorem foldl_removeRule_filter (p : RuleEnum → Bool) :
    ∀ s : List RuleEnum, distinctIds s = true →
      (s.filter p).foldl removeRule s = s.filter (fun r => !(p r)) := by
  intro s
  induction s with
  | nil => intro _; rfl
  | cons r rest ih =>
    intro h
    obtain ⟨h1, h2⟩ := (distinctIds_cons r rest).mp h
    have hrest : ∀ x ∈ rest, ruleId x ≠ ruleId r := (hasId_eq_false rest r).mp h1
    have hne : ∀ q ∈ rest.filter p, sameId r q = false := by
      intro q hq
      have hqrest : q ∈ rest := (List.mem_filter.mp hq).1
      exact (sameId_eq_false r q).mpr (fun hh => hrest q hqrest hh.symm)
    cases hp : p r with
    | false =>
      have hfil : List.filter p (r :: rest) = List.filter p rest := by
        simp [List.filter_cons, hp]
      have hfil2 : List.filter (fun x => !(p x)) (r :: rest) =
          r :: List.filter (fun x => !(p x)) rest := by
        simp [List.filter_cons, hp]
      rw [hfil, hfil2, foldl_removeRule_cons r (rest.filter p) rest hne, ih h2]
    | true =>
      have hfil : List.filter p (r :: rest) = r :: List.filter p rest := by
        simp [List.filter_cons, hp]
      have hfil2 : List.filter (fun x => !(p x)) (r :: rest) =
          List.filter (fun x => !(p x)) rest := by
        simp [List.filter_cons, hp]
      rw [hfil, hfil2, List.foldl_cons, removeRule_cons_of_same r r rest (sameId_self r), ih h2]

/-- A replacement pass whose payloads all differ from the head in identity
leaves the head. -/
theorem foldl_replaceRule_cons (x : RuleEnum) :
    ∀ (rs s : List RuleEnum), (∀ r ∈ rs, sameId x r = false) →
      rs.foldl replaceRule (x :: s) = x :: rs.foldl replaceRule s
  | [], _, _ => rfl
  | r :: rs, s, h => by
    have h1 : sameId x r = false := h r (List.mem_cons_self r rs)
    have : replaceRule (x :: s) r = x :: replaceRule s r := by simp [replaceRule, h1]
    simp only [List.foldl_cons, this]
    exact foldl_replaceRule_cons x rs (replaceRule s r)
      (fun r' hr' => h r' (List.mem_cons_of_mem _ hr'))

/-- On a duplicate-free list, replacing via an identity-preserving partial
map rewrites each member in place. -/
theorem foldl_replaceRule_filterMap (f : RuleEnum → Option RuleEnum)
    (hid : ∀ r x, f r = some x → ruleId x = ruleId r) :
    ∀ t : List RuleEnum, distinctIds t = true →
      (t.filterMap f).foldl replaceRule t = t.map (fun r => (f r).getD r) := by
  intro t
  induction t with
  | nil => intro _; rfl
  | cons r rest ih =>
    intro h
    obtain ⟨h1, h2⟩ := (distinctIds_cons r rest).mp h
    have hrest : ∀ x ∈ rest, ruleId x ≠ ruleId r := (hasId_eq_false rest r).mp h1
    cases hf : f r with
    | none =>
      have hne : ∀ y ∈ rest.filterMap f, sameId r y = false := by
        intro y hy
        obtain ⟨a, ha, hfa⟩ := List.mem_filterMap.mp hy
        have hya : ruleId y = ruleId a := hid a y hfa
        refine (sameId_eq_false r y).mpr (fun hh => hrest a ha ?_)
        rw [← hya, ← hh]
      simp only [List.filterMap_cons, hf, List.map_cons, Option.getD_none]
      rw [foldl_replaceRule_cons r (rest.filterMap f) rest hne, ih h2]
    | some x =>
      have hx : ruleId x = ruleId r := hid r x hf
      have hrx : sameId r x = true := (sameId_iff r x).mpr hx.symm
      have hhead : replaceRule (r :: rest) x = x :: rest := by simp [replaceRule, hrx]
      have hne : ∀ y ∈ rest.filterMap f, sameId x y = false := by
        intro y hy
        obtain ⟨a, ha, hfa⟩ := List.mem_filterMap.mp hy
        have hya : ruleId y = ruleId a := hid a y hfa
        refine (sameId_eq_false x y).mpr (fun hh => hrest a ha ?_)
        rw [← hya, ← hh, hx]
      simp only [List.filterMap_cons, hf, List.map_cons, Option.getD_some]
      rw [List.foldl_cons, hhead, foldl_replaceRule_cons x (rest.filterMap f) rest hne, ih h2]

/-- Filtering out elements on which `f` vanishes does not change a
`filterMap`. -/
theorem filterMap_filter_of_none {α β : Type} (f : α → Option β) (q : α → Bool)
    (hq : ∀ a, q a = false → f a = none) :
    ∀ l : List α, (l.filter q).filterMap f = l.filterMap f := by
  intro l
  induction l with
  | nil => rfl
  | cons a l ih =>
    cases hqa : q a with
    | false => simp [List.filter_cons, hqa, List.filterMap_cons, hq a hqa, ih]
    | true => simp [List.filter_cons, hqa, List.filterMap_cons, ih]

/-- Filtering preserves the duplicate-free invariant. -/
theorem distinctIds_filter (p : RuleEnum → Bool) :
    ∀ s : List RuleEnum, distinctIds s = true → distinctIds (s.filter p) = true := by
  intro s
  induction s with
  | nil => intro _; rfl
  | cons r rest ih =>
    intro h
    obtain ⟨h1, h2⟩ := (distinctIds_cons r rest).mp h
    have hrest : ∀ x ∈ rest, ruleId x ≠ ruleId r := (hasId_eq_false rest r).mp h1
    cases hp : p r with
    | false =>
      have hfil : List.filter p (r :: rest) = List.filter p rest := by
        simp [List.filter_cons, hp]
      rw [hfil]
      exact ih h2
    | true =>
      have hfil : List.filter p (r :: rest) = r :: List.filter p rest := by
        simp [List.filter_cons, hp]
      rw [hfil]
      refine (distinctIds_cons r (rest.filter p)).mpr ⟨?_, ih h2⟩
      exact (hasId_eq_false (rest.filter p) r).mpr
        (fun x hx => hrest x (List.mem_filter.mp hx).1)

/-- A rule's Allow-staging forces an absent staged replacement. -/
theorem stagedReplacement_of_not_allow (rules : List ESLintRuleConfig) (r : RuleEnum)
    (h : (!(isAllowStaged rules r)) = false) : stagedReplacement rules r = none := by
  have h' : isAllowStaged rules r = true := by
    cases hh : isAllowStaged rules r
    · rw [hh] at h; simp at h
    · rfl
  cases hf : findEntry rules r with
  | none => simp [isAllowStaged, hf] at h'
  | some e =>
    cases hs : e.severity with
    | allow => simp [stagedReplacement, hf, hs]
    | warn => simp [isAllowStaged, hf, hs] at h'
    | deny => simp [isAllowStaged, hf, hs] at h'

/-- Staged replacements preserve rule identity. -/
theorem stagedReplacement_id (rules : List ESLintRuleConfig) (r x : RuleEnum)
    (h : stagedReplacement rules r = some x) : ruleId x = ruleId r := by
  cases hf : findEntry rules r with
  | none => simp [stagedReplacement, hf] at h
  | some e =>
    cases hs : e.severity with
    | allow => simp [stagedReplacement, hf, hs] at h
    | warn =>
      simp [stagedReplacement, hf, hs] at h
      rw [← h]
      rfl
    | deny =>
      simp [stagedReplacement, hf, hs] at h
      rw [← h]
      rfl

/-- Mapping survivors through their staged replacement equals filtering the
whole list through the spec-side per-rule outcome. -/
theorem map_staged_eq_filterMap_spec (rules : List ESLintRuleConfig) :
    ∀ s : List RuleEnum,
      (s.filter (fun r => !(isAllowStaged rules r))).map
          (fun r => (stagedReplacement rules r).getD r) =
        s.filterMap (specOverrideOutcome rules) := by
  intro s
  induction s with
  | nil => rfl
  | cons r rest ih =>
    cases hf : findEntry rules r with
    | none =>
      have hns : isAllowStaged rules r = false := by simp [isAllowStaged, hf]
      have hsr : stagedReplacement rules r = none := by simp [stagedReplacement, hf]
      have hso : specOverrideOutcome rules r = some r := by simp [specOverrideOutcome, hf]
      simp [List.filter_cons, List.filterMap_cons, hns, hsr, hso, ih]
    | some e =>
      cases hs : e.severity with
      | allow =>
        have hns : isAllowStaged rules r = true := by simp [isAllowStaged, hf, hs]
        have hso : specOverrideOutcome rules r = none := by simp [specOverrideOutcome, hf, hs]
        simp [List.filter_cons, List.filterMap_cons, hns, hso, ih]
      | warn =>
        have hns : isAllowStaged rules r = false := by simp [isAllowStaged, hf, hs]
        have hsr : stagedReplacement rules r = some (r.read_json e.config) := by
          simp [stagedReplacement, hf, hs]
        have hso : specOverrideOutcome rules r = some (r.read_json e.config) := by
          simp [specOverrideOutcome, hf, hs]
        simp [List.filter_cons, List.filterMap_cons, hns, hsr, hso, ih]
      | deny =>
        have hns : isAllowStaged rules r = false := by simp [isAllowStaged, hf, hs]
        have hsr : stagedReplacement rules r = some (r.read_json e.config) := by
          simp [stagedReplacement, hf, hs]
        have hso : specOverrideOutcome rules r = some (r.read_json e.config) := by
          simp [specOverrideOutcome, hf, hs]
        simp [List.filter_cons, List.filterMap_cons, hns, hsr, hso, ih]

/-- The override engine, run on a duplicate-free active list, computes the
spec-side per-rule outcome of every active rule, in place. -/
theorem override_rules_eq_filterMap (cfg : ESLintConfig) (s : List RuleEnum)
    (h : distinctIds s = true) :
    cfg.override_rules s = s.filterMap (specOverrideOutcome cfg.rules) := by
  unfold ESLintConfig.override_rules
  rw [stageRules_eq cfg.rules s]
  simp only
  rw [foldl_removeRule_filter (isAllowStaged cfg.rules) s h]
  rw [← filterMap_filter_of_none (stagedReplacement cfg.rules)
    (fun r => !(isAllowStaged cfg.rules r)) (stagedReplacement_of_not_allow cfg.rules) s]
  rw [foldl_replaceRule_filterMap (stagedReplacement cfg.rules)
    (stagedReplacement_id cfg.rules)
    (s.filter (fun r => !(isAllowStaged cfg.rules r)))
    (distinctIds_filter (fun r => !(isAllowStaged cfg.rules r)) s h)]
  exact map_staged_eq_filterMap_spec cfg.rules s

/-- The spec-side per-rule outcome preserves rule identity. -/
theorem specOverrideOutcome_id (rules : List ESLintRuleConfig) (r x : RuleEnum)
    (h : specOverrideOutcome rules r = some x) : ruleId x = ruleId r := by
  cases hf : findEntry rules r with
  | none =>
    simp [specOverrideOutcome, hf] at h
    rw [← h]
  | some e =>
    cases hs : e.severity with
    | allow => simp [specOverrideOutcome, hf, hs] at h
    | warn =>
      simp [specOverrideOutcome, hf, hs] at h
      rw [← h]
      rfl
    | deny =>
      simp [specOverrideOutcome, hf, hs] at h
      rw [← h]
      rfl

/-- The spec-side per-rule outcome is idempotent on its own results. -/
theorem specOverrideOutcome_fixed (rules : List ESLintRuleConfig) (r x : RuleEnum)
    (h : specOverrideOutcome rules r = some x) :
    specOverrideOutcome rules x = some x := by
  cases hf : findEntry rules r with
  | none =>
    simp [specOverrideOutcome, hf] at h
    rw [← h]
    simp [specOverrideOutcome, hf]
  | some e =>
    cases hs : e.severity with
    | allow => simp [specOverrideOutcome, hf, hs] at h
    | warn =>
      simp [specOverrideOutcome, hf, hs] at h
      have hfx : findEntry rules x = some e := by
        rw [← h, findEntry_read_json, hf]
      simp only [specOverrideOutcome, hfx, hs]
      rw [← h]
      rfl
    | deny =>
      simp [specOverrideOutcome, hf, hs] at h
      have hfx : findEntry rules x = some e := by
        rw [← h, findEntry_read_json, hf]
      simp only [specOverrideOutcome, hfx, hs]
      rw [← h]
      rfl

/-- An identity-preserving partial map keeps a duplicate-free list
duplicate-free under `filterMap`. -/
theorem distinctIds_filterMap (f : RuleEnum → Option RuleEnum)
    (hid : ∀ r x, f r = some x → ruleId x = ruleId r) :
    ∀ s : List RuleEnum, distinctIds s = true → distinctIds (s.filterMap f) = true := by
  intro s
  induction s with
  | nil => intro _; rfl
  | cons r rest ih =>
    intro h
    obtain ⟨h1, h2⟩ := (distinctIds_cons r rest).mp h
    have hrest : ∀ x ∈ rest, ruleId x ≠ ruleId r := (hasId_eq_false rest r).mp h1
    cases hfr : f r with
    | none => simp only [List.filterMap_cons, hfr]; exact ih h2
    | some x =>
      simp only [List.filterMap_cons, hfr]
      refine (distinctIds_cons x (rest.filterMap f)).mpr ⟨?_, ih h2⟩
      refine (hasId_eq_false (rest.filterMap f) x).mpr ?_
      intro y hy
      obtain ⟨a, ha, hfa⟩ := List.mem_filterMap.mp hy
      have hya : ruleId y = ruleId a := hid a y hfa
      have hxr : ruleId x = ruleId r := hid r x hfr
      rw [hya, hxr]
      exact hrest a ha

/-- A partial map that fixes its own results is idempotent under
`filterMap`. -/
theorem filterMap_fixed_idem {α : Type} (f : α → Option α)
    (hfix : ∀ a b, f a = some b → f b = some b) :
    ∀ l : List α, (l.filterMap f).filterMap f = l.filterMap f := by
  intro l
  induction l with
  | nil => rfl
  | cons a l ih =>
    cases hfa : f a with
    | none => simp only [List.filterMap_cons, hfa]; exact ih
    | some b =>
      simp only [List.filterMap_cons, hfa, hfix a b hfa]
      rw [ih]

/-- Pointwise equal partial maps produce the same `filterMap`. -/
theorem filterMap_congr_mem {α β : Type} (f g : α → Option β) :
    ∀ l : List α, (∀ a ∈ l, f a = g a) → l.filterMap f = l.filterMap g := by
  intro l
  induction l with
  | nil => intro _; rfl
  | cons a l ih =>
    intro h
    have ha : f a = g a := h a (List.mem_cons_self a l)
    simp only [List.filterMap_cons, ha]
    rw [ih (fun x hx => h x (List.mem_cons_of_mem _ hx))]

/-- Dropping a never-matching element from the middle of a list does not
change a first-match search. -/
theorem find?_append_cons_of_neg {α : Type} (p : α → Bool) (e : α) (h : p e = false) :
    ∀ l₁ l₂ : List α, (l₁ ++ e :: l₂).find? p = (l₁ ++ l₂).find? p := by
  intro l₁
  induction l₁ with
  | nil =>
    intro l₂
    simp only [List.nil_append]
    exact List.find?_cons_of_neg _ (by simp [h])
  | cons c l₁ ih =>
    intro l₂
    cases hpc : p c with
    | true =>
      simp only [List.cons_append]
      rw [List.find?_cons_of_pos _ hpc, List.find?_cons_of_pos _ hpc]
    | false =>
      have hnc : ¬ p c = true := by simp [hpc]
      simp only [List.cons_append]
      rw [List.find?_cons_of_neg _ hnc, List.find?_cons_of_neg _ hnc]
      exact ih l₂

/-- A configuration entry matching a rule neither way may be dropped from
the document without changing that rule's override outcome. -/
theorem specOverrideOutcome_drop_entry (e : ESLintRuleConfig) (r : RuleEnum)
    (h : entryMatches e r = false) (cfg₁ cfg₂ : List ESLintRuleConfig) :
    specOverrideOutcome (cfg₁ ++ e :: cfg₂) r = specOverrideOutcome (cfg₁ ++ cfg₂) r := by
  unfold specOverrideOutcome findEntry
  rw [find?_append_cons_of_neg (fun ec => entryMatches ec r) e h cfg₁ cfg₂]

/-- Splitting at a character that never occurs yields nothing. -/
theorem splitOnce_eq_none (c : Char) :
    ∀ l : List Char, c ∉ l → splitOnce c l = none := by
  intro l
  induction l with
  | nil => intro _; rfl
  | cons x xs ih =>
    intro h
    have hx : ¬ c = x := fun hh => h (by rw [hh]; exact List.mem_cons_self x xs)
    have hxc : (x == c) = false := beq_eq_false_iff_ne.mpr (fun hh => hx hh.symm)
    have hxs : c ∉ xs := fun hh => h (List.mem_cons_of_mem _ hh)
    simp [splitOnce, hxc, ih hxs]

/-- Splitting at the first occurrence of `c` returns the parts before and
after it. -/
theorem splitOnce_append (c : Char) :
    ∀ (pre post : List Char), c ∉ pre →
      splitOnce c (pre ++ c :: post) = some (pre, post) := by
  intro pre
  induction pre with
  | nil =>
    intro post _
    simp [splitOnce]
  | cons x xs ih =>
    intro post h
    have hx : ¬ c = x := fun hh => h (by rw [hh]; exact List.mem_cons_self x xs)
    have hxc : (x == c) = false := beq_eq_false_iff_ne.mpr (fun hh => hx hh.symm)
    have hxs : c ∉ xs := fun hh => h (List.mem_cons_of_mem _ hh)
    simp [splitOnce, hxc, ih post hxs]

/-- Leading at-sign runs are consumed transparently by the at-stripping. -/
theorem dropWhile_at_replicate (k : Nat) (l : List Char) :
    List.dropWhile (fun ch => ch == '@') (List.replicate k '@' ++ l) =
      List.dropWhile (fun ch => ch == '@') l := by
  induction k with
  | zero => simp
  | succ k ih => simp [List.replicate_succ, List.dropWhile_cons, ih]

/-- C1: for every parsed configuration and every active rule set (pairwise
distinct identities, as a hash set guarantees), `override_rules` gives each
active rule the outcome decided by the first configuration entry in
document order matching its (plugin_name, rule_name): Warn/Deny replaces it
with an instance carrying the entry's options payload, Allow removes it,
and no match leaves it untouched; staged removals are applied before staged
replacements, and the resulting set holds exactly those outcomes. -/
theorem C1_override_rules_correct (cfg : ESLintConfig) (s : List RuleEnum)
    (h : distinctIds s = true) :
    cfg.override_rules s = s.filterMap (specOverrideOutcome cfg.rules) ∧
      (∀ r', r' ∈ cfg.override_rules s ↔
        ∃ r ∈ s, specOverrideOutcome cfg.rules r = some r') := by
  refine ⟨override_rules_eq_filterMap cfg s h, ?_⟩
  intro r'
  rw [override_rules_eq_filterMap cfg s h]
  exact List.mem_filterMap

/-- Witness for C1 at a concrete configuration and active rule set. -/
theorem C1_witness :
    distinctIds exActiveRules = true ∧
      exConfig.override_rules exActiveRules =
        exActiveRules.filterMap (specOverrideOutcome exConfig.rules) :=
  ⟨rfl, (C1_override_rules_correct exConfig exActiveRules rfl).1⟩

/-- C2, as amended: a bare numeric rule value always fails with the
invalid-rule-value error carrying the number's text; the numeric
equivalents 0/1/2 decode to Allow/Warn/Deny — matching the bare strings
"off"/"warn"/"error" — only when they appear as the first element of an
array. -/
theorem C2_numeric_severities :
    (∀ n : Int, resolve_rule_value (.num n) =
      .error (.failedToParseRuleValue (toString n) "Invalid rule value")) ∧
      resolve_rule_value (.arr [.num 0]) = .ok (.allow, none) ∧
      resolve_rule_value (.arr [.num 1]) = .ok (.warn, none) ∧
      resolve_rule_value (.arr [.num 2]) = .ok (.deny, none) ∧
      resolve_rule_value (.str "off") = .ok (.allow, none) ∧
      resolve_rule_value (.str "warn") = .ok (.warn, none) ∧
      resolve_rule_value (.str "error") = .ok (.deny, none) :=
  ⟨fun _ => rfl, rfl, rfl, rfl, rfl, rfl, rfl⟩

/-- Counterexample to C2 as stated: the rule value that is the bare number
1 does not decode to Warn; it is rejected as an invalid rule value. -/
theorem C2_counterexample :
    resolve_rule_value (.num 1) =
      .error (.failedToParseRuleValue "1" "Invalid rule value") := rfl

/-- C3: on a settings document whose components mapping holds a non-string
value, the source's `value.as_str().unwrap()` panics (modelled as `none`)
instead of returning the typed decode error the spec requires. -/
theorem C3_components_nonstring_panics :
    parse_settings
        (.obj [("jsx-a11y", .obj [("components", .obj [("Link", .num 1)])])]) =
      none := rfl

/-- C4: for a non-empty array rule value, the severity is decoded from the
element at index 0; the options payload is exactly the elements at indices
1 and 2 in order, index 3 and beyond being silently dropped; and when
nothing follows index 0 the payload is omitted entirely, never an empty
array. -/
theorem C4_array_rule_value (v0 : Value) (vs : List Value) :
    resolve_rule_value (.arr (v0 :: vs)) =
      match AllowWarnDeny.tryFromValue v0 with
      | .ok s => .ok (s, if vs.isEmpty then none else some (.arr (vs.take 2)))
      | .error e => .error e := by
  cases vs with
  | nil =>
    cases h : AllowWarnDeny.tryFromValue v0 <;>
      simp [resolve_rule_value, Value.asStr, Value.asArr, h]
  | cons v1 vs' =>
    cases h : AllowWarnDeny.tryFromValue v0 <;>
      simp [resolve_rule_value, Value.asStr, Value.asArr, h]

/-- C5: an empty array, or any value that is neither a string nor an array,
fails severity decoding with the invalid-rule-value error carrying the
offending value's textual form. -/
theorem C5_invalid_rule_value (v : Value)
    (h : (v.asStr = none ∧ v.asArr = none) ∨ v = .arr []) :
    resolve_rule_value v =
      .error (.failedToParseRuleValue (jsonToString v) "Invalid rule value") := by
  rcases h with ⟨h1, h2⟩ | h
  · simp [resolve_rule_value, h1, h2]
  · rw [h]; rfl

/-- Witness for C5 at the JSON null value. -/
theorem C5_witness :
    ((Value.null.asStr = none ∧ Value.null.asArr = none) ∨ Value.null = .arr []) ∧
      resolve_rule_value .null =
        .error (.failedToParseRuleValue (jsonToString .null) "Invalid rule value") :=
  ⟨Or.inl ⟨rfl, rfl⟩, C5_invalid_rule_value .null (Or.inl ⟨rfl, rfl⟩)⟩

/-- C6: rule-name resolution is total; a key with no slash resolves to the
default plugin "eslint" with the key itself as the rule name, and a key
"scope/name" resolves to the portion before the first slash with leading
at-signs stripped and the two known aliases applied, paired with the
portion after that slash. -/
theorem C6_parse_rule_name_resolution :
    (∀ name : String, '/' ∉ name.data → parse_rule_name name = ("eslint", name)) ∧
      (∀ pre post : String, '/' ∉ pre.data →
        parse_rule_name (pre ++ "/" ++ post) =
          (aliasNormalized (atStripped pre), post)) := by
  constructor
  · intro name h
    unfold parse_rule_name
    rw [splitOnce_eq_none '/' name.data h]
  · intro pre post h
    have hd : (pre ++ "/" ++ post).data = pre.data ++ '/' :: post.data := by
      simp [String.data_append]
    unfold parse_rule_name
    rw [hd, splitOnce_append '/' pre.data post.data h]
    rfl

/-- Witness for C6 at a bare key and at an alias-mapped scoped key. -/
theorem C6_witness :
    ('/' ∉ "semi".data) ∧ parse_rule_name "semi" = ("eslint", "semi") ∧
      ('/' ∉ "@typescript-eslint".data) ∧
      parse_rule_name ("@typescript-eslint" ++ "/" ++ "no-explicit-any") =
        (aliasNormalized (atStripped "@typescript-eslint"), "no-explicit-any") :=
  ⟨by decide, C6_parse_rule_name_resolution.1 "semi" (by decide),
   by decide,
   C6_parse_rule_name_resolution.2 "@typescript-eslint" "no-explicit-any" (by decide)⟩

/-- C7: applying the same configuration twice to an active rule set yields
the same final set as applying it once. -/
theorem C7_override_rules_idempotent (cfg : ESLintConfig) (s : List RuleEnum)
    (h : distinctIds s = true) :
    cfg.override_rules (cfg.override_rules s) = cfg.override_rules s := by
  have h2 : distinctIds (s.filterMap (specOverrideOutcome cfg.rules)) = true :=
    distinctIds_filterMap _ (specOverrideOutcome_id cfg.rules) s h
  rw [override_rules_eq_filterMap cfg s h, override_rules_eq_filterMap cfg _ h2]
  exact filterMap_fixed_idem _ (specOverrideOutcome_fixed cfg.rules) s

/-- Witness for C7 at a concrete configuration and active rule set. -/
theorem C7_witness :
    distinctIds exActiveRules = true ∧
      exConfig.override_rules (exConfig.override_rules exActiveRules) =
        exConfig.override_rules exActiveRules :=
  ⟨rfl, C7_override_rules_idempotent exConfig exActiveRules rfl⟩

/-- C8: the override engine never adds a new rule kind — every identity in
the resulting set was already present — and a configuration entry matching
no active rule can be dropped from the document without changing the
result. -/
theorem C8_no_new_rule_kinds (cfg : ESLintConfig) (s : List RuleEnum)
    (h : distinctIds s = true) :
    (∀ r' ∈ cfg.override_rules s, ∃ r ∈ s, ruleId r' = ruleId r) ∧
      (∀ (e : ESLintRuleConfig) (cfg₁ cfg₂ : List ESLintRuleConfig)
          (st : LintSettings), entryMatchesNone e s = true →
        (ESLintConfig.mk (cfg₁ ++ e :: cfg₂) st).override_rules s =
          (ESLintConfig.mk (cfg₁ ++ cfg₂) st).override_rules s) := by
  constructor
  · intro r' hr'
    rw [override_rules_eq_filterMap cfg s h] at hr'
    obtain ⟨r, hrs, hsoc⟩ := List.mem_filterMap.mp hr'
    exact ⟨r, hrs, specOverrideOutcome_id cfg.rules r r' hsoc⟩
  · intro e cfg₁ cfg₂ st hnm
    have hm : ∀ r ∈ s, entryMatches e r = false := by
      intro r hr
      simpa using (List.all_eq_true.mp hnm) r hr
    rw [override_rules_eq_filterMap _ s h, override_rules_eq_filterMap _ s h]
    exact filterMap_congr_mem _ _ s
      (fun r hr => specOverrideOutcome_drop_entry e r (hm r hr) cfg₁ cfg₂)

/-- Witness for C8: dropping an unmatched entry from the middle of the
document leaves the override result unchanged. -/
theorem C8_witness :
    distinctIds exActiveRules = true ∧
      entryMatchesNone exEntryUnmatched exActiveRules = true ∧
      (ESLintConfig.mk ([exEntryNoVar] ++ exEntryUnmatched :: [exEntryEqeqeq])
          LintSettings.default).override_rules exActiveRules =
        (ESLintConfig.mk ([exEntryNoVar] ++ [exEntryEqeqeq])
          LintSettings.default).override_rules exActiveRules :=
  ⟨rfl, rfl,
    (C8_no_new_rule_kinds exConfig exActiveRules rfl).2 exEntryUnmatched
      [exEntryNoVar] [exEntryEqeqeq] LintSettings.default rfl⟩

/-- C9: every leading at-sign of the scope portion is stripped, not just
one, before alias rewriting: any number of extra leading at-signs on the
scope resolves to the same plugin as the at-stripped scope. -/
theorem C9_all_leading_ats_stripped (k : Nat) (scope post : String)
    (h : '/' ∉ scope.data) :
    parse_rule_name (String.mk (List.replicate k '@' ++ scope.data) ++ "/" ++ post) =
      (aliasNormalized (atStripped scope), post) := by
  have hmem : '/' ∉ List.replicate k '@' ++ scope.data := by
    intro hh
    rcases List.mem_append.mp hh with h1 | h2
    · exact absurd (List.eq_of_mem_replicate h1) (by decide)
    · exact h h2
  have hd : (String.mk (List.replicate k '@' ++ scope.data) ++ "/" ++ post).data =
      (List.replicate k '@' ++ scope.data) ++ '/' :: post.data := by
    simp [String.data_append]
  unfold parse_rule_name
  rw [hd, splitOnce_append '/' _ post.data hmem]
  simp only [dropWhile_at_replicate]
  rfl

/-- Witness for C9 at a doubly at-signed alias-mapped scope. -/
theorem C9_witness :
    ('/' ∉ "jsx-a11y".data) ∧
      parse_rule_name
          (String.mk (List.replicate 2 '@' ++ "jsx-a11y".data) ++ "/" ++ "alt-text") =
        (aliasNormalized (atStripped "jsx-a11y"), "alt-text") :=
  ⟨by decide, C9_all_leading_ats_stripped 2 "jsx-a11y" "alt-text" (by decide)⟩

/-- C10, as amended: settings extraction silently tolerates a non-object
"jsx-a11y" value, a non-object "components" value, and a non-string
"polymorphicPropName" value — the affected field falls back to its default
— provided (in the last case) the components extraction itself succeeds,
i.e. the components value is absent, not an object, or holds only string
values; a non-string components value still panics as in C3. -/
theorem C10_settings_type_tolerance :
    (∀ (s : List (String × Value)) (jv : Value),
      objGet s "jsx-a11y" = some jv → jv.asObj = none →
      parse_settings (.obj s) = some LintSettings.default) ∧
      (∀ (s : List (String × Value)) (j : List (String × Value)) (c : Value),
        objGet s "jsx-a11y" = some (.obj j) →
        objGet j "components" = some c → c.asObj = none →
        parse_settings (.obj s) = some ⟨⟨polymorphicPropNameOf j, []⟩⟩) ∧
      (∀ (s : List (String × Value)) (j : List (String × Value)) (p : Value)
          (cs : List (String × String)),
        objGet s "jsx-a11y" = some (.obj j) →
        objGet j "polymorphicPropName" = some p → p.asStr = none →
        componentsOf j = some cs →
        parse_settings (.obj s) = some ⟨⟨none, cs⟩⟩) := by
  refine ⟨?_, ?_, ?_⟩
  · intro s jv h1 h2
    cases jv <;> simp [parse_settings, h1] <;> simp [Value.asObj] at h2
  · intro s j c h1 h2 h3
    have hco : componentsOf j = some [] := by
      cases c <;> simp [componentsOf, h2] <;> simp [Value.asObj] at h3
    simp [parse_settings, h1, hco]
  · intro s j p cs h1 h2 h3 h4
    have hpn : polymorphicPropNameOf j = none := by
      cases p <;> simp [polymorphicPropNameOf, h2] <;> simp [Value.asStr] at h3
    simp [parse_settings, h1, h4, hpn]

/-- Witness for C10 as amended: a non-string polymorphicPropName is
silently dropped when the components extraction succeeds. -/
theorem C10_witness :
    objGet [("polymorphicPropName", Value.num 1)] "polymorphicPropName" =
        some (.num 1) ∧
      (Value.num 1).asStr = none ∧
      componentsOf [("polymorphicPropName", Value.num 1)] = some [] ∧
      parse_settings (.obj [("jsx-a11y", .obj [("polymorphicPropName", Value.num 1)])]) =
        some ⟨⟨none, []⟩⟩ :=
  ⟨rfl, rfl, rfl,
    C10_settings_type_tolerance.2.2 [("jsx-a11y", .obj [("polymorphicPropName", Value.num 1)])]
      [("polymorphicPropName", Value.num 1)] (Value.num 1) [] rfl rfl rfl rfl⟩

/-- Counterexample to C10 as stated: a document whose polymorphicPropName
value is not a string (so C10's hypothesis holds) on which settings
extraction does not succeed but panics, because the components mapping also
holds a non-string value. -/
theorem C10_counterexample :
    objGet [("components", Value.obj [("a", Value.num 2)]),
        ("polymorphicPropName", Value.num 1)] "polymorphicPropName" =
        some (.num 1) ∧
      (Value.num 1).asStr = none ∧
      parse_settings (.obj [("jsx-a11y",
          .obj [("components", Value.obj [("a", Value.num 2)]),
            ("polymorphicPropName", Value.num 1)])]) = none :=
  ⟨rfl, rfl, rfl⟩
